import Mathlib

/-!
Verification of the keypoint-transform pipeline of `beavr-bot`
(`src/beavr/teleop/components/detector/vr/keypoint_transform.py` and
`src/beavr/teleop/components/detector/vr/log_keypoints.py`).

Machine floating point is modelled by exact real arithmetic: every numpy
`float64` value becomes a real number, so the spec's "within epsilon"
statements become exact equalities.
-/

/-- A 3D point or vector (one row of an `(N, 3)` numpy array). -/
def Vec : Type := Fin 3 → ℝ

noncomputable instance : Zero Vec := ⟨fun _ => 0⟩
noncomputable instance : Add Vec := ⟨fun a b i => a i + b i⟩
noncomputable instance : Sub Vec := ⟨fun a b i => a i - b i⟩

@[simp] lemma Vec.zero_apply (i : Fin 3) : (0 : Vec) i = 0 := rfl
@[simp] lemma Vec.add_apply (a b : Vec) (i : Fin 3) : (a + b) i = a i + b i := rfl
@[simp] lemma Vec.sub_apply (a b : Vec) (i : Fin 3) : (a - b) i = a i - b i := rfl

/-- Builds a `Vec` from three coordinates (a numpy row `[x, y, z]`). -/
def vec3 (x y z : ℝ) : Vec := ![x, y, z]

@[simp] lemma vec3_zero (x y z : ℝ) : vec3 x y z 0 = x := rfl
@[simp] lemma vec3_one (x y z : ℝ) : vec3 x y z 1 = y := rfl
@[simp] lemma vec3_two (x y z : ℝ) : vec3 x y z 2 = z := rfl

/-- `np.dot` on two 3-vectors. -/
def dot (a b : Vec) : ℝ := a 0 * b 0 + a 1 * b 1 + a 2 * b 2

/-- `np.cross` on two 3-vectors. -/
def cross (a b : Vec) : Vec :=
  vec3 (a 1 * b 2 - a 2 * b 1) (a 2 * b 0 - a 0 * b 2) (a 0 * b 1 - a 1 * b 0)

@[simp] lemma cross_zero (a b : Vec) : cross a b 0 = a 1 * b 2 - a 2 * b 1 := rfl
@[simp] lemma cross_one (a b : Vec) : cross a b 1 = a 2 * b 0 - a 0 * b 2 := rfl
@[simp] lemma cross_two (a b : Vec) : cross a b 2 = a 0 * b 1 - a 1 * b 0 := rfl

/-- `np.linalg.norm` on a 3-vector. -/
noncomputable def vnorm (v : Vec) : ℝ := Real.sqrt (dot v v)

/-- Modelled from the spec: `normalize_vector` from
`beavr.teleop.common.math.vectorops` is not under `src/`; the spec (§4.1,
§4.2) describes it as plain normalization, `v / |v|`. -/
noncomputable def normalize_vector (v : Vec) : Vec := fun i => v i / vnorm v

lemma vec_ext (a b : Vec) (h0 : a 0 = b 0) (h1 : a 1 = b 1) (h2 : a 2 = b 2) :
    a = b := by
  funext i
  fin_cases i <;> assumption

lemma dot_self_nonneg (v : Vec) : 0 ≤ dot v v := by
  unfold dot
  nlinarith [mul_self_nonneg (v 0), mul_self_nonneg (v 1), mul_self_nonneg (v 2)]

lemma dot_self_pos (v : Vec) (hv : v ≠ 0) : 0 < dot v v := by
  rcases (dot_self_nonneg v).lt_or_eq with h | h
  · exact h
  · exfalso
    apply hv
    have h0 : v 0 = 0 := by unfold dot at h; nlinarith [sq_nonneg (v 0), sq_nonneg (v 1), sq_nonneg (v 2)]
    have h1 : v 1 = 0 := by unfold dot at h; nlinarith [sq_nonneg (v 0), sq_nonneg (v 1), sq_nonneg (v 2)]
    have h2 : v 2 = 0 := by unfold dot at h; nlinarith [sq_nonneg (v 0), sq_nonneg (v 1), sq_nonneg (v 2)]
    exact vec_ext v 0 h0 h1 h2

lemma vnorm_pos (v : Vec) (hv : v ≠ 0) : 0 < vnorm v :=
  Real.sqrt_pos.mpr (dot_self_pos v hv)

lemma vnorm_mul_self (v : Vec) : vnorm v * vnorm v = dot v v :=
  Real.mul_self_sqrt (dot_self_nonneg v)

lemma dot_normalize_self (v : Vec) (hv : v ≠ 0) :
    dot (normalize_vector v) (normalize_vector v) = 1 := by
  have hp := dot_self_pos v hv
  have key : dot (normalize_vector v) (normalize_vector v)
      = dot v v / (vnorm v * vnorm v) := by
    unfold dot normalize_vector; ring
  rw [key, vnorm_mul_self]
  exact div_self hp.ne'

lemma vnorm_normalize (v : Vec) (hv : v ≠ 0) : vnorm (normalize_vector v) = 1 := by
  rw [vnorm, dot_normalize_self v hv, Real.sqrt_one]

lemma normalize_of_unit (v : Vec) (h : dot v v = 1) : normalize_vector v = v := by
  funext i
  rw [normalize_vector, vnorm, h, Real.sqrt_one, div_one]

lemma dot_normalize_right (x v : Vec) :
    dot x (normalize_vector v) = dot x v / vnorm v := by
  unfold dot normalize_vector; ring

lemma dot_comm (a b : Vec) : dot a b = dot b a := by unfold dot; ring

lemma dot_cross_left (a b : Vec) : dot a (cross a b) = 0 := by
  unfold dot cross; simp; ring

lemma dot_cross_right (a b : Vec) : dot b (cross a b) = 0 := by
  unfold dot cross; simp; ring

lemma lagrange_identity (a b : Vec) :
    dot (cross a b) (cross a b) = dot a a * dot b b - dot a b * dot a b := by
  unfold dot cross; simp; ring

@[simp] lemma normalize_vector_zero : normalize_vector (0 : Vec) = 0 := by
  funext i
  simp [normalize_vector]

lemma cross_zero_left (b : Vec) : cross (0 : Vec) b = 0 := by
  apply vec_ext <;> simp

lemma cross_zero_right (a : Vec) : cross a (0 : Vec) = 0 := by
  apply vec_ext <;> simp

/-- `TransformHandPositionCoords._orthogonalize_frame`: Gram-Schmidt on three
vectors. The third input is overwritten by `cross(x, y)` before use, so only
its slot matters, never its value. -/
noncomputable def orthogonalize_frame (x_vec y_vec z_vec : Vec) : Vec × Vec × Vec :=
  let x := normalize_vector x_vec
  let y0 : Vec := fun i => y_vec i - dot y_vec x * x i
  let y := normalize_vector y0
  let z := normalize_vector (cross x y)
  (x, y, z)

/-- Configuration of a `TransformHandPositionCoords` instance: keypoint count
(`robots.OCULUS_NUM_KEYPOINTS`), hand side, knuckle landmark indices from
`robots.OCULUS_JOINTS`, moving-average limit and logging flag. -/
structure HandConfig where
  numKeypoints : ℕ
  numKeypoints_pos : 0 < numKeypoints
  handSide : String
  indexKnuckleIdx : Fin numKeypoints
  middleKnuckleIdx : Fin numKeypoints
  pinkyKnuckleIdx : Fin numKeypoints
  movingAverageLimit : ℕ
  enableLogging : Bool

/-- `self.wrist_idx = 0`. -/
def wristIdx (cfg : HandConfig) : Fin cfg.numKeypoints := ⟨0, cfg.numKeypoints_pos⟩

/-- A keypoint set: an `(N, 3)` array of hand coordinates. -/
def KP (cfg : HandConfig) : Type := Fin cfg.numKeypoints → Vec

/-- `TransformHandPositionCoords._get_stable_coord_frame`. -/
noncomputable def get_stable_coord_frame (cfg : HandConfig) (hand_coords : KP cfg) :
    Fin 3 → Vec :=
  let wrist := hand_coords (wristIdx cfg)
  let v1 := hand_coords cfg.indexKnuckleIdx - wrist
  let v2 := hand_coords cfg.pinkyKnuckleIdx - wrist
  let v3 := hand_coords cfg.middleKnuckleIdx - wrist
  let palm_normal := normalize_vector (cross v1 v3)
  let palm_direction := normalize_vector (fun i => (v1 + v2 + v3) i / 3)
  let cross_product := normalize_vector (cross palm_direction palm_normal)
  let o := orthogonalize_frame cross_product palm_direction palm_normal
  ![o.1, o.2.1, o.2.2]

/-- `TransformHandPositionCoords._get_stable_hand_dir_frame`. The source
branches on `hand_side` but both branches compute the same three vectors. -/
noncomputable def get_stable_hand_dir_frame (cfg : HandConfig) (hand_coords : KP cfg) :
    Fin 4 → Vec :=
  let wrist := hand_coords (wristIdx cfg)
  let v1 := hand_coords cfg.indexKnuckleIdx - wrist
  let v2 := hand_coords cfg.pinkyKnuckleIdx - wrist
  let v3 := hand_coords cfg.middleKnuckleIdx - wrist
  let f :=
    if cfg.handSide = "right" then
      let palm_normal := normalize_vector (cross v1 v3)
      let palm_direction := normalize_vector (fun i => (v1 + v2 + v3) i / 3)
      let cross_product := normalize_vector (cross palm_direction palm_normal)
      (cross_product, palm_normal, palm_direction)
    else
      let palm_normal := normalize_vector (cross v1 v3)
      let palm_direction := normalize_vector (fun i => (v1 + v2 + v3) i / 3)
      let cross_product := normalize_vector (cross palm_direction palm_normal)
      (cross_product, palm_normal, palm_direction)
  let o := orthogonalize_frame f.1 f.2.1 f.2.2
  ![wrist, o.1, o.2.1, o.2.2]

/-- The 3x3 matrix whose rows are the three frame vectors (how
`np.linalg.solve` reads the list `original_coord_frame`). -/
noncomputable def frameMatrix (f : Fin 3 → Vec) : Matrix (Fin 3) (Fin 3) ℝ :=
  Matrix.of fun i j => f i j

open Classical in
/-- `TransformHandPositionCoords.transform_keypoints`. `np.linalg.solve(M, I)`
raises `LinAlgError` on a singular matrix, modelled as `none`; otherwise it
returns `M⁻¹`, and `rotation_matrix` is its transpose. Row `i` of
`(R @ T.T).T` is `R` applied to translated point `i`. -/
noncomputable def transform_keypoints (cfg : HandConfig) (hand_coords : KP cfg) :
    Option (KP cfg × (Fin 4 → Vec)) :=
  let translated : KP cfg := fun i => hand_coords i - hand_coords ⟨0, cfg.numKeypoints_pos⟩
  let original_coord_frame := get_stable_coord_frame cfg translated
  let M := frameMatrix original_coord_frame
  if M.det = 0 then none
  else
    let rotation_matrix := M⁻¹.transpose
    let transformed : KP cfg := fun i => rotation_matrix.mulVec (translated i)
    some (transformed, get_stable_hand_dir_frame cfg hand_coords)

/-- Modelled from the spec: the sliding-window update of `moving_average` from
`beavr.teleop.common.math.vectorops` is not under `src/`; the spec (§3, §4.4)
says: append the latest sample; if the window exceeds the limit, evict the
oldest. -/
def moving_average_window {I : Type} (sample : I → ℝ) (queue : List (I → ℝ))
    (limit : ℕ) : List (I → ℝ) :=
  let q := queue ++ [sample]
  if limit < q.length then q.tail else q

/-- Modelled from the spec: `moving_average` from
`beavr.teleop.common.math.vectorops` is not under `src/`; the spec (§4.4) says
it returns the elementwise arithmetic mean across the updated window. Returns
(mean, updated queue); the source mutates the queue in place. -/
noncomputable def moving_average {I : Type} (sample : I → ℝ) (queue : List (I → ℝ))
    (limit : ℕ) : (I → ℝ) × List (I → ℝ) :=
  let q := moving_average_window sample queue limit
  (fun i => (q.map (fun s => s i)).sum / q.length, q)

/-- Repeated sliding-window updates, one per tick, oldest sample first. -/
def window_steps {I : Type} (limit : ℕ) (queue : List (I → ℝ)) :
    List (I → ℝ) → List (I → ℝ)
  | [] => queue
  | s :: rest => window_steps limit (moving_average_window s queue limit) rest

/-- `HandMode` (an `IntEnum`: `ABSOLUTE = 1`, `RELATIVE = 0`). -/
inductive HandMode
  | absolute
  | relative
deriving DecidableEq

/-- `InputFrame` as consumed by `_get_hand_coords`: a keypoint array (list of
3D rows) and the `is_relative` flag. -/
structure InputFrame where
  keypoints : List Vec
  isRelative : Bool

/-- Exceptions the loop body can raise (none of them is caught in `stream`):
`reshapeError` models the `ValueError` of `keypoints.reshape(N, 3)` on a size
mismatch, `linAlgError` the `LinAlgError` of `np.linalg.solve`. -/
inductive StreamError
  | reshapeError
  | linAlgError
deriving DecidableEq

/-- Mutable state of the loop between ticks: the two moving-average queues,
flattened to functions on (row, coordinate) index pairs. -/
structure StreamState (cfg : HandConfig) where
  coordQueue : List (Fin cfg.numKeypoints × Fin 3 → ℝ)
  frameQueue : List (Fin 4 × Fin 3 → ℝ)

/-- Flattens an `(N, 3)` keypoint array to a function on index pairs. -/
def kpFlat (cfg : HandConfig) (k : KP cfg) : Fin cfg.numKeypoints × Fin 3 → ℝ :=
  fun p => k p.1 p.2

/-- Flattens a `(4, 3)` frame array to a function on index pairs. -/
def frameFlat (f : Fin 4 → Vec) : Fin 4 × Fin 3 → ℝ :=
  fun p => f p.1 p.2

/-- What `stream` publishes: the `InputFrame` built at lines 257-263 of
`keypoint_transform.py` (the wall-clock timestamp is passed in as `now`). -/
structure OutputRecord (cfg : HandConfig) where
  timestampS : ℝ
  handSide : String
  keypoints : KP cfg
  isRelative : Bool
  frameVectors : Fin 4 → Vec

/-- Arguments of a `KeypointLogger.log_frame` call made by `_log_frame`. -/
structure LogCall (cfg : HandConfig) where
  keypoints : KP cfg
  coordinateFrame : Fin 4 → Vec

/-- `TransformHandPositionCoords._get_hand_coords`: `None` input yields
`(None, None)`; otherwise the keypoints are reshaped to `(N, 3)` — a
`ValueError` (modelled as `reshapeError`) when the count differs from N — and
the data type is derived from `is_relative`. -/
def get_hand_coords (cfg : HandConfig) :
    Option InputFrame → Except StreamError (Option (HandMode × KP cfg))
  | none => Except.ok none
  | some f =>
    if h : f.keypoints.length = cfg.numKeypoints then
      Except.ok (some
        ( if f.isRelative then HandMode.relative else HandMode.absolute,
          fun i => f.keypoints.get ⟨i.val, by rw [h]; exact i.isLt⟩ ))
    else Except.error StreamError.reshapeError

/-- Lines 223-281 of the loop body: transform, smooth, re-orthogonalize,
publish twice, log. `np.linalg.solve` raising on a singular frame matrix is
the `none` branch; `stream` has no handler for it, so it becomes an error. -/
noncomputable def process_coords (cfg : HandConfig) (now : ℝ) (state : StreamState cfg)
    (data_type : HandMode) (hand_coords : KP cfg) :
    Except StreamError (StreamState cfg × List (OutputRecord cfg) × List (LogCall cfg)) :=
  match transform_keypoints cfg hand_coords with
  | none => Except.error StreamError.linAlgError
  | some (transformed_keypoints, coordinate_frame) =>
      let ma1 := moving_average (kpFlat cfg transformed_keypoints) state.coordQueue
        cfg.movingAverageLimit
      let averaged_keypoints : KP cfg := fun i j => ma1.1 (i, j)
      let ma2 := moving_average (frameFlat coordinate_frame) state.frameQueue
        cfg.movingAverageLimit
      let averaged_frame : Fin 4 → Vec := fun i j => ma2.1 (i, j)
      let origin := averaged_frame 0
      let x_vec := normalize_vector (averaged_frame 1)
      let y_vec := normalize_vector (averaged_frame 2)
      let z_vec := normalize_vector (averaged_frame 3)
      let o := orthogonalize_frame x_vec y_vec z_vec
      let final_frame : Fin 4 → Vec := ![origin, o.1, o.2.1, o.2.2]
      let data : OutputRecord cfg :=
        { timestampS := now
          handSide := cfg.handSide
          keypoints := averaged_keypoints
          isRelative := data_type = HandMode.relative
          frameVectors := final_frame }
      Except.ok
        ( { coordQueue := ma1.2, frameQueue := ma2.2 },
          [data, data],
          if cfg.enableLogging then [⟨averaged_keypoints, final_frame⟩] else [] )

/-- Dispatch on the outcome of `_get_hand_coords` in the loop body: `None`
means continue silently; an exception propagates (no handler in `stream`). -/
noncomputable def after_get (cfg : HandConfig) (now : ℝ) (state : StreamState cfg) :
    Except StreamError (Option (HandMode × KP cfg)) →
      Except StreamError (StreamState cfg × List (OutputRecord cfg) × List (LogCall cfg))
  | Except.error e => Except.error e
  | Except.ok none => Except.ok (state, [], [])
  | Except.ok (some (data_type, hand_coords)) =>
    process_coords cfg now state data_type hand_coords

/-- One iteration of the `stream` loop body, as a function from the received
input and the queue state to either an uncaught exception or the new state
plus the publish and log calls made this tick. -/
noncomputable def stream_step (cfg : HandConfig) (now : ℝ) (state : StreamState cfg)
    (input : Option InputFrame) :
    Except StreamError (StreamState cfg × List (OutputRecord cfg) × List (LogCall cfg)) :=
  after_get cfg now state (get_hand_coords cfg input)

/-- `TransformHandPositionCoords.__init__`, reduced to its validation
behaviour: it raises `ValueError` exactly when `hand_side` is not `left` or
`right`; no other argument (in particular `moving_average_limit`) is
validated. -/
def init_component (hand_side : String) (moving_average_limit : Int) :
    Except String (String × Int) :=
  if hand_side = "left" ∨ hand_side = "right" then
    Except.ok (hand_side, moving_average_limit)
  else
    Except.error "hand_side must be left or right"

/-- One entry of `KeypointLogger.logged_data`: the `frame_data` dict built by
`log_frame`, with the payload (timestamp, keypoints, coordinate frame)
abstracted to a value of type `A`. -/
structure LogRec (A : Type) where
  frameId : ℕ
  data : A
deriving DecidableEq

/-- The JSON document `save_data` writes: `total_frames` is the length of the
in-memory buffer at save time, `frames` its contents. -/
structure SavedDoc (A : Type) where
  totalFrames : ℕ
  frames : List (LogRec A)
deriving DecidableEq

/-- State of a `KeypointLogger`: the cumulative frame counter, the in-memory
buffer `logged_data`, and the contents of the single fixed log file
`self.log_file` (`none` before the first write; each write opens it with mode
`"w"`, replacing the previous contents). -/
structure LoggerState (A : Type) where
  frameCounter : ℕ
  loggedData : List (LogRec A)
  fileContents : Option (SavedDoc A)
deriving DecidableEq

/-- `KeypointLogger.save_data`: returns immediately when the buffer is empty,
otherwise overwrites the log file with the buffered frames. -/
def save_data {A : Type} (s : LoggerState A) : LoggerState A :=
  if s.loggedData.length = 0 then s
  else { s with fileContents := some ⟨s.loggedData.length, s.loggedData⟩ }

/-- `KeypointLogger.log_frame` with auto-save interval `M`: append a record
carrying the current counter as `frame_id`, increment the counter, and when
the counter reaches a multiple of `M`, save and clear the buffer. -/
def log_frame {A : Type} (M : ℕ) (s : LoggerState A) (d : A) : LoggerState A :=
  let s1 : LoggerState A :=
    { s with
      loggedData := s.loggedData ++ [⟨s.frameCounter, d⟩]
      frameCounter := s.frameCounter + 1 }
  if s1.frameCounter % M = 0 then
    let s2 := save_data s1
    { s2 with loggedData := [] }
  else s1

/-- The logger state after `n` calls of `log_frame`, the `i`-th call logging
payload `f i`, starting from a fresh logger. -/
def run_logger {A : Type} (M : ℕ) (f : ℕ → A) : ℕ → LoggerState A
  | 0 => ⟨0, [], none⟩
  | n + 1 => log_frame M (run_logger M f n) (f n)

/-- Claim C6: for every keypoint set, the hand-direction frame computed with
`hand_side = left` equals the one computed with `hand_side = right` — the two
hand-side branches implement identical formulas. -/
theorem c6_hand_dir_frame_side_independent (cfg : HandConfig) (hand_coords : KP cfg) :
    get_stable_hand_dir_frame { cfg with handSide := "left" } hand_coords
      = get_stable_hand_dir_frame { cfg with handSide := "right" } hand_coords := by
  unfold get_stable_hand_dir_frame
  simp only [ite_self]
  rfl

/-- Claim C8: on a tick where acquisition returns no data, the loop makes no
publish call and no log call, leaves both sliding windows unchanged, and
continues without error. -/
theorem c8_no_data_tick_is_silent (cfg : HandConfig) (now : ℝ) (state : StreamState cfg) :
    stream_step cfg now state none = Except.ok (state, [], []) := rfl

/-- Claim C9 counterexample: constructing with a valid hand side and the
invalid moving-average window size `-3` succeeds — the constructor does not
raise, contradicting the claim that every invalid window size is rejected. -/
theorem c9_counterexample :
    init_component "right" (-3) = Except.ok ("right", -3) := rfl

/-- Claim C9 (amended): construction fails exactly when the hand side is
outside {left, right}; the moving-average window size is never validated. -/
theorem c9_init_validates_only_hand_side (hand_side : String) (limit : Int) :
    (∃ s, init_component hand_side limit = Except.ok s)
      ↔ (hand_side = "left" ∨ hand_side = "right") := by
  by_cases hc : hand_side = "left" ∨ hand_side = "right" <;>
    simp [init_component, hc]

/-- The vector `seedY - (seedY . x) * x` with `x = normalize(seedX)`: the
intermediate of the Gram-Schmidt projection step inside
`_orthogonalize_frame`. -/
noncomputable def gsY0 (sx sy : Vec) : Vec :=
  fun i => sy i - dot sy (normalize_vector sx) * normalize_vector sx i

lemma dot_normalize_gsY0 (sx sy : Vec) (hx : sx ≠ 0) :
    dot (normalize_vector sx) (gsY0 sx sy) = 0 := by
  have expand : dot (normalize_vector sx) (gsY0 sx sy)
      = dot (normalize_vector sx) sy
        - dot sy (normalize_vector sx) * dot (normalize_vector sx) (normalize_vector sx) := by
    unfold gsY0 dot; ring
  rw [expand, dot_normalize_self sx hx, dot_comm]; ring

lemma dot_gs_x_y (sx sy : Vec) (hx : sx ≠ 0) :
    dot (normalize_vector sx) (normalize_vector (gsY0 sx sy)) = 0 := by
  rw [dot_normalize_right, dot_normalize_gsY0 sx sy hx, zero_div]

lemma gs_cross_unit (sx sy : Vec) (hx : sx ≠ 0) (hy : gsY0 sx sy ≠ 0) :
    dot (cross (normalize_vector sx) (normalize_vector (gsY0 sx sy)))
      (cross (normalize_vector sx) (normalize_vector (gsY0 sx sy))) = 1 := by
  rw [lagrange_identity, dot_normalize_self sx hx, dot_normalize_self _ hy,
    dot_gs_x_y sx sy hx]
  ring

lemma orthogonalize_frame_closed (sx sy sz : Vec) (hx : sx ≠ 0) (hy : gsY0 sx sy ≠ 0) :
    orthogonalize_frame sx sy sz =
      ( normalize_vector sx, normalize_vector (gsY0 sx sy),
        cross (normalize_vector sx) (normalize_vector (gsY0 sx sy)) ) := by
  have h1 : orthogonalize_frame sx sy sz
      = ( normalize_vector sx, normalize_vector (gsY0 sx sy),
          normalize_vector (cross (normalize_vector sx) (normalize_vector (gsY0 sx sy))) ) := rfl
  rw [h1, normalize_of_unit _ (gs_cross_unit sx sy hx hy)]

/-- The postcondition of `_orthogonalize_frame` claimed by the spec: the three
outputs are unit length, pairwise orthogonal, right-handed (z is exactly the
cross product of x and y over the reals), computed by normalizing the first
input and projecting it out of the second, with the third input discarded. -/
noncomputable def OrthogonalizeSpec (sx sy sz sz2 : Vec) : Prop :=
  vnorm (orthogonalize_frame sx sy sz).1 = 1 ∧
  vnorm (orthogonalize_frame sx sy sz).2.1 = 1 ∧
  vnorm (orthogonalize_frame sx sy sz).2.2 = 1 ∧
  dot (orthogonalize_frame sx sy sz).1 (orthogonalize_frame sx sy sz).2.1 = 0 ∧
  dot (orthogonalize_frame sx sy sz).1 (orthogonalize_frame sx sy sz).2.2 = 0 ∧
  dot (orthogonalize_frame sx sy sz).2.1 (orthogonalize_frame sx sy sz).2.2 = 0 ∧
  (orthogonalize_frame sx sy sz).2.2
    = cross (orthogonalize_frame sx sy sz).1 (orthogonalize_frame sx sy sz).2.1 ∧
  (orthogonalize_frame sx sy sz).1 = normalize_vector sx ∧
  (orthogonalize_frame sx sy sz).2.1 = normalize_vector (gsY0 sx sy) ∧
  orthogonalize_frame sx sy sz2 = orthogonalize_frame sx sy sz

/-- Claim C2: for every non-degenerate triple (first seed nonzero, projected
second seed nonzero), `_orthogonalize_frame` returns a unit-length, pairwise
orthogonal, right-handed basis, built by Gram-Schmidt from the first two seeds
and independent of the third. -/
theorem c2_orthogonalize_output_orthonormal (sx sy sz sz2 : Vec)
    (hx : sx ≠ 0) (hy : gsY0 sx sy ≠ 0) :
    OrthogonalizeSpec sx sy sz sz2 := by
  unfold OrthogonalizeSpec
  rw [orthogonalize_frame_closed sx sy sz hx hy,
    orthogonalize_frame_closed sx sy sz2 hx hy]
  refine ⟨vnorm_normalize sx hx, vnorm_normalize _ hy, ?_, dot_gs_x_y sx sy hx,
    dot_cross_left _ _, dot_cross_right _ _, rfl, rfl, rfl, rfl⟩
  rw [vnorm, gs_cross_unit sx sy hx hy, Real.sqrt_one]

/-- Claim C2 witness: the concrete non-degenerate seeds `(1,0,0)`, `(0,1,0)`
satisfy both hypotheses, and the orthonormality postcondition holds there. -/
theorem c2_witness :
    (vec3 1 0 0 ≠ (0 : Vec)) ∧ (gsY0 (vec3 1 0 0) (vec3 0 1 0) ≠ (0 : Vec)) ∧
    OrthogonalizeSpec (vec3 1 0 0) (vec3 0 1 0) (vec3 0 0 7) (vec3 5 5 5) := by
  have hnx : normalize_vector (vec3 1 0 0) = vec3 1 0 0 :=
    normalize_of_unit _ (by simp [dot])
  have p1 : vec3 1 0 0 ≠ (0 : Vec) := by
    intro h
    have h1 := congrFun h 0
    simp at h1
  have p2 : gsY0 (vec3 1 0 0) (vec3 0 1 0) ≠ (0 : Vec) := by
    intro h
    have h1 := congrFun h 1
    simp [gsY0, hnx, dot] at h1
  exact ⟨p1, p2, c2_orthogonalize_output_orthonormal _ _ _ _ p1 p2⟩

/-- Claim C5: re-orthogonalizing a frame whose basis vectors are already unit
length, pairwise orthogonal, and right-handed returns the same three vectors
unchanged (exactly, over the reals). -/
theorem c5_reorthogonalize_idempotent (x y z : Vec)
    (hx : vnorm x = 1) (hy : vnorm y = 1) (hz : vnorm z = 1)
    (hxy : dot x y = 0) (hxz : dot x z = 0) (hyz : dot y z = 0)
    (hrh : z = cross x y) :
    orthogonalize_frame x y z = (x, y, z) := by
  have hdx : dot x x = 1 := by
    have h2 := vnorm_mul_self x
    rw [hx] at h2; linarith
  have hdy : dot y y = 1 := by
    have h2 := vnorm_mul_self y
    rw [hy] at h2; linarith
  have hdz : dot z z = 1 := by
    have h2 := vnorm_mul_self z
    rw [hz] at h2; linarith
  have hnx : normalize_vector x = x := normalize_of_unit x hdx
  have step : orthogonalize_frame x y z
      = ( normalize_vector x,
          normalize_vector (fun i => y i - dot y (normalize_vector x) * normalize_vector x i),
          normalize_vector (cross (normalize_vector x)
            (normalize_vector (fun i => y i - dot y (normalize_vector x) * normalize_vector x i))) ) := rfl
  have hy0 : (fun i => y i - dot y x * x i) = y := by
    funext i
    rw [dot_comm y x, hxy]
    ring
  rw [step, hnx, hy0, normalize_of_unit y hdy, ← hrh, normalize_of_unit z hdz]

/-- Claim C5 witness: the standard basis is an orthonormal right-handed frame
and re-orthogonalization returns it unchanged. -/
theorem c5_witness :
    vnorm (vec3 1 0 0) = 1 ∧ vnorm (vec3 0 1 0) = 1 ∧ vnorm (vec3 0 0 1) = 1 ∧
    dot (vec3 1 0 0) (vec3 0 1 0) = 0 ∧ dot (vec3 1 0 0) (vec3 0 0 1) = 0 ∧
    dot (vec3 0 1 0) (vec3 0 0 1) = 0 ∧
    vec3 0 0 1 = cross (vec3 1 0 0) (vec3 0 1 0) ∧
    orthogonalize_frame (vec3 1 0 0) (vec3 0 1 0) (vec3 0 0 1)
      = (vec3 1 0 0, vec3 0 1 0, vec3 0 0 1) := by
  have h1 : vnorm (vec3 1 0 0) = 1 := by simp [vnorm, dot]
  have h2 : vnorm (vec3 0 1 0) = 1 := by simp [vnorm, dot]
  have h3 : vnorm (vec3 0 0 1) = 1 := by simp [vnorm, dot]
  have h4 : dot (vec3 1 0 0) (vec3 0 1 0) = 0 := by simp [dot]
  have h5 : dot (vec3 1 0 0) (vec3 0 0 1) = 0 := by simp [dot]
  have h6 : dot (vec3 0 1 0) (vec3 0 0 1) = 0 := by simp [dot]
  have h7 : vec3 0 0 1 = cross (vec3 1 0 0) (vec3 0 1 0) := by
    apply vec_ext <;> simp
  exact ⟨h1, h2, h3, h4, h5, h6, h7,
    c5_reorthogonalize_idempotent _ _ _ h1 h2 h3 h4 h5 h6 h7⟩

lemma window_step_eq {I : Type} (s : I → ℝ) (q : List (I → ℝ)) (K : ℕ)
    (hq : q.length ≤ K) :
    moving_average_window s q K = (q ++ [s]).drop ((q.length + 1) - K) := by
  unfold moving_average_window
  by_cases hc : K < (q ++ [s]).length
  · rw [if_pos hc, ← List.drop_one]
    congr 1
    simp only [List.length_append, List.length_singleton] at hc
    omega
  · rw [if_neg hc]
    simp only [List.length_append, List.length_singleton] at hc
    have h0 : (q.length + 1) - K = 0 := by omega
    rw [h0, List.drop_zero]

lemma window_steps_eq {I : Type} (K : ℕ) (samples : List (I → ℝ)) :
    ∀ q : List (I → ℝ), q.length ≤ K →
      window_steps K q samples = (q ++ samples).drop ((q.length + samples.length) - K) := by
  induction samples with
  | nil =>
    intro q hq
    have h0 : (q.length + ([] : List (I → ℝ)).length) - K = 0 := by
      simp only [List.length_nil]; omega
    rw [h0, List.drop_zero, List.append_nil]
    rfl
  | cons s rest ih =>
    intro q hq
    have hstep : window_steps K q (s :: rest)
        = window_steps K (moving_average_window s q K) rest := rfl
    rw [hstep, window_step_eq s q K hq]
    have hd : (q.length + 1) - K ≤ (q ++ [s]).length := by
      simp only [List.length_append, List.length_singleton]; omega
    have hq2len : ((q ++ [s]).drop ((q.length + 1) - K)).length ≤ K := by
      rw [List.length_drop]
      simp only [List.length_append, List.length_singleton]
      omega
    rw [ih _ hq2len, ← List.drop_append_of_le_length hd, List.drop_drop]
    have hlist : (q ++ [s]) ++ rest = q ++ s :: rest := by simp
    rw [hlist]
    congr 1
    simp only [List.length_drop, List.length_append, List.length_singleton,
      List.length_cons, List.length_nil]
    omega

/-- The sliding-window behaviour the spec claims: after the ticks, the window
holds exactly the K most recent samples and no more than K of them, and each
tick's smoothed output is the elementwise arithmetic mean of the updated
window's contents. -/
noncomputable def SlidingWindowSpec {I : Type} (K : ℕ) (samples : List (I → ℝ)) : Prop :=
  window_steps K [] samples = samples.drop (samples.length - K) ∧
  (window_steps K [] samples).length = K ∧
  (∀ pre suf : List (I → ℝ), samples = pre ++ suf →
    (window_steps K [] pre).length ≤ K) ∧
  (∀ (s : I → ℝ) (q : List (I → ℝ)),
    (moving_average s q K).1
      = fun i => ((moving_average_window s q K).map (fun g => g i)).sum
          / (moving_average_window s q K).length) ∧
  (∀ (s : I → ℝ) (q : List (I → ℝ)), (moving_average s q K).2 = moving_average_window s q K)

/-- Claim C4: for more than K ticks with window limit K (K positive), the
sliding window ends up holding exactly the K most recent samples, its size
never exceeds K (it is exactly K here), and the smoothed output of every tick
is the exact elementwise mean of its window's contents. Both the keypoint and
the frame window of `stream` are instances of this queue discipline. -/
theorem c4_sliding_window_holds_last_k {I : Type} (K : ℕ) (samples : List (I → ℝ))
    (hK : 0 < K) (hN : K < samples.length) :
    SlidingWindowSpec K samples := by
  refine ⟨?_, ?_, ?_, fun s q => rfl, fun s q => rfl⟩
  · have h := window_steps_eq K samples [] (by simp)
    simpa using h
  · have h := window_steps_eq K samples [] (by simp)
    simp only [List.nil_append, List.length_nil, Nat.zero_add] at h
    rw [h, List.length_drop]
    omega
  · intro pre suf hsplit
    have h := window_steps_eq K pre [] (by simp)
    simp only [List.nil_append, List.length_nil, Nat.zero_add] at h
    rw [h, List.length_drop]
    omega

/-- Claim C4 witness: three samples through a window of limit 2 leave exactly
the last two samples in the window. -/
theorem c4_witness :
    0 < 2 ∧
    2 < ([fun _ => 1, fun _ => 2, fun _ => 3] : List (Fin 1 → ℝ)).length ∧
    SlidingWindowSpec 2 ([fun _ => 1, fun _ => 2, fun _ => 3] : List (Fin 1 → ℝ)) :=
  ⟨by norm_num, by simp,
    c4_sliding_window_holds_last_k 2 _ (by norm_num) (by simp)⟩

lemma succ_mod_of_eq (M n : ℕ) (hM : 0 < M) (h : n % M = M - 1) :
    (n + 1) % M = 0 ∧ (n + 1) / M = n / M + 1 := by
  have hd := Nat.div_add_mod n M
  have hn : n + 1 = M * (n / M + 1) := by
    rw [Nat.mul_add, Nat.mul_one]
    rw [h] at hd
    generalize M * (n / M) = t at hd ⊢
    omega
  constructor
  · rw [hn]; exact Nat.mul_mod_right M _
  · rw [hn]; exact Nat.mul_div_cancel_left _ hM

lemma succ_mod_of_ne (M n : ℕ) (hM : 0 < M) (h : n % M ≠ M - 1) :
    (n + 1) % M = n % M + 1 ∧ (n + 1) / M = n / M := by
  have hr : n % M < M := Nat.mod_lt n hM
  have hr1 : n % M + 1 < M := by omega
  have hd := Nat.div_add_mod n M
  have hn : n + 1 = (n % M + 1) + M * (n / M) := by
    generalize M * (n / M) = t at hd ⊢
    omega
  constructor
  · rw [hn, Nat.add_mul_mod_self_left]
    exact Nat.mod_eq_of_lt hr1
  · rw [hn, Nat.add_mul_div_left _ _ hM, Nat.div_eq_of_lt hr1, Nat.zero_add]

/-- Closed form of the logger state after `n` calls: the counter is `n`, the
buffer holds the records logged since the last multiple of `M` (with
consecutive `frame_id`s ending at `n - 1`), and the file holds the last saved
block of exactly `M` records, or nothing before the first save. -/
def logger_spec_state {A : Type} (M : ℕ) (f : ℕ → A) (n : ℕ) : LoggerState A :=
  ⟨ n,
    (List.range' (n - n % M) (n % M)).map (fun i => ⟨i, f i⟩),
    if M * (n / M) = 0 then none
    else some ⟨M, (List.range' (M * (n / M) - M) M).map (fun i => ⟨i, f i⟩)⟩ ⟩

lemma range'_concat_map {A : Type} (g : ℕ → A) (a k : ℕ) :
    (List.range' a k).map g ++ [g (a + k)] = (List.range' a (k + 1)).map g := by
  have h : List.range' a (k + 1) = List.range' a k ++ [a + 1 * k] :=
    List.range'_concat a k
  rw [h, List.map_append, Nat.one_mul]
  simp

lemma run_logger_eq_spec {A : Type} (M : ℕ) (hM : 0 < M) (f : ℕ → A) :
    ∀ n : ℕ, run_logger M f n = logger_spec_state M f n := by
  intro n
  induction n with
  | zero =>
    unfold run_logger logger_spec_state
    simp
  | succ n ih =>
    have hmodlt : n % M < M := Nat.mod_lt n hM
    have hmodle : n % M ≤ n := Nat.mod_le n M
    have hb := Nat.div_add_mod n M
    have hstep : run_logger M f (n + 1) = log_frame M (logger_spec_state M f n) (f n) := by
      rw [← ih]; rfl
    rw [hstep]
    by_cases hcase : n % M = M - 1
    · obtain ⟨hmod, hdiv⟩ := succ_mod_of_eq M n hM hcase
      have hc : M * ((n + 1) / M) = n + 1 := by
        rw [hdiv, Nat.mul_add, Nat.mul_one]
        rw [hcase] at hb
        generalize M * (n / M) = P at hb ⊢
        omega
      have hc2 : M * ((n + 1) / M) ≠ 0 := by rw [hc]; omega
      have e1 : n % M + 1 = M := by omega
      have hbuf : (List.range' (n - n % M) (n % M)).map (fun i => (⟨i, f i⟩ : LogRec A))
            ++ [⟨n, f n⟩]
          = (List.range' (M * ((n + 1) / M) - M) M).map (fun i => (⟨i, f i⟩ : LogRec A)) := by
        have h1 := range'_concat_map (fun i => (⟨i, f i⟩ : LogRec A)) (n - n % M) (n % M)
        have h2 : n - n % M + n % M = n := by omega
        rw [h2] at h1
        rw [h1]
        have e2 : n - n % M = M * ((n + 1) / M) - M := by
          rw [hc]
          generalize M * (n / M) = P at hb ⊢
          omega
        rw [e1, e2]
      simp only [log_frame, save_data, logger_spec_state]
      rw [if_pos hmod]
      simp only [List.length_append, List.length_map, List.length_range',
        List.length_singleton]
      rw [if_neg (Nat.succ_ne_zero (n % M)), if_neg hc2]
      simp only [hmod, List.range'_zero, List.map_nil, LoggerState.mk.injEq,
        Option.some.injEq, SavedDoc.mk.injEq]
      exact ⟨trivial, trivial, e1, hbuf⟩
    · obtain ⟨hmod, hdiv⟩ := succ_mod_of_ne M n hM hcase
      have hbuf : (List.range' (n - n % M) (n % M)).map (fun i => (⟨i, f i⟩ : LogRec A))
            ++ [⟨n, f n⟩]
          = (List.range' ((n + 1) - (n + 1) % M) ((n + 1) % M)).map
              (fun i => (⟨i, f i⟩ : LogRec A)) := by
        have h1 := range'_concat_map (fun i => (⟨i, f i⟩ : LogRec A)) (n - n % M) (n % M)
        have h2 : n - n % M + n % M = n := by omega
        rw [h2] at h1
        rw [h1, hmod]
        have e2 : (n + 1) - (n % M + 1) = n - n % M := by omega
        rw [e2]
      have hmodne : (n + 1) % M ≠ 0 := by rw [hmod]; omega
      simp only [log_frame, save_data, logger_spec_state]
      rw [if_neg hmodne]
      simp only [LoggerState.mk.injEq, hdiv]
      exact ⟨trivial, hbuf, trivial⟩

/-- The logger behaviour the claim describes, as a closed form plus the buffer
bound: after any number of calls the state matches `logger_spec_state` (buffer
= frames since the last auto-save with consecutive ids, file = exactly the
last M frames with `total_frames = M`, single slot so each save overwrites the
previous one) and the in-memory buffer never holds more than M frames. -/
def LoggerSpec (A : Type) (M : ℕ) (f : ℕ → A) (n : ℕ) : Prop :=
  run_logger M f n = logger_spec_state M f n ∧
  (run_logger M f n).loggedData.length ≤ M

/-- Claim C10: with auto-save interval M, after every `log_frame` call the
buffer holds at most M frames; at each multiple of M the buffered block of
exactly M frames is written to the single fixed file (overwriting the previous
save, `total_frames` = M = frames since the previous save) and the buffer is
cleared; `frame_id`s stay globally consecutive. -/
theorem c10_logger_autosave_invariant {A : Type} (M : ℕ) (f : ℕ → A) (n : ℕ)
    (hM : 0 < M) : LoggerSpec A M f n := by
  have h := run_logger_eq_spec M hM f n
  refine ⟨h, ?_⟩
  rw [h]
  simp only [logger_spec_state, List.length_map, List.length_range']
  exact le_of_lt (Nat.mod_lt n hM)

/-- Claim C10 witness: five calls with auto-save interval 2. -/
theorem c10_witness : 0 < 2 ∧ LoggerSpec ℕ 2 (fun i => i) 5 :=
  ⟨by norm_num, c10_logger_autosave_invariant 2 (fun i => i) 5 (by norm_num)⟩

/-- The wrist-relative translation `copy(hand_coords) - hand_coords[0]` at the
top of `transform_keypoints`. -/
noncomputable def translatedCoords (cfg : HandConfig) (hand_coords : KP cfg) : KP cfg :=
  fun i => hand_coords i - hand_coords ⟨0, cfg.numKeypoints_pos⟩

/-- `rotation_matrix = np.linalg.solve(original_coord_frame, np.eye(3)).T`:
the transpose of the inverse of the frame matrix of the rotation-alignment
frame of the translated keypoints. -/
noncomputable def rotationMatrix (cfg : HandConfig) (hand_coords : KP cfg) :
    Matrix (Fin 3) (Fin 3) ℝ :=
  (frameMatrix (get_stable_coord_frame cfg (translatedCoords cfg hand_coords)))⁻¹.transpose

/-- What the claim says `transform_keypoints` returns: every translated point
rotated by `rotationMatrix`, paired with the hand-direction frame of the
untranslated keypoints; and `rotationMatrix` sends the rotation-alignment
frame's basis vectors to the rows of the identity. -/
noncomputable def TransformSpec (cfg : HandConfig) (hand_coords : KP cfg) : Prop :=
  transform_keypoints cfg hand_coords
      = some
        ( fun i => (rotationMatrix cfg hand_coords).mulVec (translatedCoords cfg hand_coords i),
          get_stable_hand_dir_frame cfg hand_coords ) ∧
  ∀ j : Fin 3,
    (rotationMatrix cfg hand_coords).mulVec
        (get_stable_coord_frame cfg (translatedCoords cfg hand_coords) j)
      = (1 : Matrix (Fin 3) (Fin 3) ℝ) j

/-- Claim C1: whenever the rotation-alignment frame of the translated
keypoints has a non-singular matrix, `transform_keypoints` translates by the
wrist (index 0), builds R as the transposed inverse of the frame matrix (so R
maps the frame's own basis vectors to the identity rows), applies R to every
translated point, and returns the hand-direction frame of the untranslated
keypoints. -/
theorem c1_transform_keypoints_spec (cfg : HandConfig) (hand_coords : KP cfg)
    (hdet : (frameMatrix (get_stable_coord_frame cfg (translatedCoords cfg hand_coords))).det ≠ 0) :
    TransformSpec cfg hand_coords := by
  have hunit : IsUnit (frameMatrix
      (get_stable_coord_frame cfg (translatedCoords cfg hand_coords))).det :=
    isUnit_iff_ne_zero.mpr hdet
  have hMinv := Matrix.mul_nonsing_inv _ hunit
  constructor
  · unfold transform_keypoints
    unfold translatedCoords at hdet ⊢
    rw [if_neg hdet]
    rfl
  · intro j
    funext k
    set M := frameMatrix (get_stable_coord_frame cfg (translatedCoords cfg hand_coords))
      with hMdef
    have expand : (rotationMatrix cfg hand_coords).mulVec
        (get_stable_coord_frame cfg (translatedCoords cfg hand_coords) j) k
        = ∑ l, M⁻¹ l k * M j l := by
      unfold rotationMatrix
      rw [← hMdef]
      simp [Matrix.mulVec, Matrix.dotProduct, Matrix.transpose_apply, hMdef, frameMatrix]
    rw [expand]
    calc ∑ l, M⁻¹ l k * M j l
        = ∑ l, M j l * M⁻¹ l k := by
          exact Finset.sum_congr rfl fun l _ => mul_comm _ _
      _ = (M * M⁻¹) j k := (Matrix.mul_apply).symm
      _ = (1 : Matrix (Fin 3) (Fin 3) ℝ) j k := by rw [hMinv]

/-- A concrete 4-keypoint configuration (wrist at 0, knuckles at 1, 2, 3). -/
noncomputable def c1cfg : HandConfig := ⟨4, by norm_num, "right", 1, 2, 3, 5, false⟩

/-- A concrete non-degenerate keypoint set for `c1cfg`. -/
noncomputable def c1coords : KP c1cfg :=
  ![vec3 0 0 0, vec3 1 0 0, vec3 0 1 0, vec3 2 (-1) 0]

lemma c1_concrete_frame : get_stable_coord_frame c1cfg (translatedCoords c1cfg c1coords)
    = ![vec3 0 (-1) 0, vec3 1 0 0, vec3 0 0 1] := by
  have ht : translatedCoords c1cfg c1coords = c1coords := by
    funext i
    fin_cases i <;> (apply vec_ext <;> simp [translatedCoords, c1coords, c1cfg])
  have hv1 : c1coords c1cfg.indexKnuckleIdx - c1coords (wristIdx c1cfg) = vec3 1 0 0 := by
    apply vec_ext <;> simp [c1coords, c1cfg, wristIdx]
  have hv2 : c1coords c1cfg.pinkyKnuckleIdx - c1coords (wristIdx c1cfg) = vec3 2 (-1) 0 := by
    apply vec_ext <;> simp [c1coords, c1cfg, wristIdx]
  have hv3 : c1coords c1cfg.middleKnuckleIdx - c1coords (wristIdx c1cfg) = vec3 0 1 0 := by
    apply vec_ext <;> simp [c1coords, c1cfg, wristIdx]
  have hcr1 : cross (vec3 1 0 0) (vec3 0 1 0) = vec3 0 0 1 := by
    apply vec_ext <;> simp
  have hn1 : normalize_vector (vec3 0 0 1) = vec3 0 0 1 :=
    normalize_of_unit _ (by simp [dot])
  have hsum : (fun i => (vec3 1 0 0 + vec3 2 (-1) 0 + vec3 0 1 0) i / 3) = vec3 1 0 0 := by
    funext i
    fin_cases i <;> (simp ; try norm_num)
  have hn2 : normalize_vector (vec3 1 0 0) = vec3 1 0 0 :=
    normalize_of_unit _ (by simp [dot])
  have hcr2 : cross (vec3 1 0 0) (vec3 0 0 1) = vec3 0 (-1) 0 := by
    apply vec_ext <;> simp
  have hn3 : normalize_vector (vec3 0 (-1) 0) = vec3 0 (-1) 0 :=
    normalize_of_unit _ (by simp [dot])
  have px : vec3 0 (-1) 0 ≠ (0 : Vec) := by
    intro h
    have h1 := congrFun h 1
    simp at h1
  have hgs : gsY0 (vec3 0 (-1) 0) (vec3 1 0 0) = vec3 1 0 0 := by
    unfold gsY0
    rw [hn3]
    funext i
    fin_cases i <;> simp [dot]
  have py : gsY0 (vec3 0 (-1) 0) (vec3 1 0 0) ≠ (0 : Vec) := by
    rw [hgs]
    intro h
    have h1 := congrFun h 0
    simp at h1
  have hcr3 : cross (vec3 0 (-1) 0) (vec3 1 0 0) = vec3 0 0 1 := by
    apply vec_ext <;> simp
  have ho : orthogonalize_frame (vec3 0 (-1) 0) (vec3 1 0 0) (vec3 0 0 1)
      = (vec3 0 (-1) 0, vec3 1 0 0, vec3 0 0 1) := by
    rw [orthogonalize_frame_closed _ _ _ px py, hgs, hn3, hn2, hcr3]
  rw [ht]
  simp only [get_stable_coord_frame]
  rw [hv1, hv2, hv3, hcr1, hn1, hsum, hn2, hcr2, hn3, ho]

lemma c1_concrete_det :
    (frameMatrix (get_stable_coord_frame c1cfg (translatedCoords c1cfg c1coords))).det ≠ 0 := by
  rw [c1_concrete_frame]
  norm_num [frameMatrix, Matrix.det_fin_three, Matrix.of_apply]

/-- Claim C1 witness: a concrete keypoint set whose rotation-alignment frame
matrix is non-singular, at which the transform postcondition holds. -/
theorem c1_witness :
    (frameMatrix (get_stable_coord_frame c1cfg (translatedCoords c1cfg c1coords))).det ≠ 0 ∧
    TransformSpec c1cfg c1coords :=
  ⟨c1_concrete_det, c1_transform_keypoints_spec c1cfg c1coords c1_concrete_det⟩

lemma transform_keypoints_const (cfg : HandConfig) (v : Vec) :
    transform_keypoints cfg (fun _ => v) = none := by
  have htr : (fun (i : Fin cfg.numKeypoints) => v - v) = (fun _ => (0 : Vec)) := by
    funext i
    apply vec_ext <;> simp
  have hframe0 : get_stable_coord_frame cfg (fun _ => (0 : Vec)) = ![(0 : Vec), 0, 0] := by
    funext j
    fin_cases j <;>
      (apply vec_ext <;>
        simp [get_stable_coord_frame, orthogonalize_frame, normalize_vector,
          vnorm, dot, cross, wristIdx])
  have hdet0 : (frameMatrix (get_stable_coord_frame cfg
      (fun (i : Fin cfg.numKeypoints) => v - v))).det = 0 := by
    rw [htr, hframe0]
    norm_num [frameMatrix, Matrix.det_fin_three, Matrix.of_apply]
  simp only [transform_keypoints]
  rw [if_pos hdet0]

lemma transform_keypoints_of_const (cfg : HandConfig) (coords : KP cfg) (v : Vec)
    (h : ∀ i, coords i = v) : transform_keypoints cfg coords = none := by
  have hc : coords = fun _ => v := funext h
  rw [hc]
  exact transform_keypoints_const cfg v

lemma get_hand_coords_ok (cfg : HandConfig) (inp : InputFrame)
    (h : inp.keypoints.length = cfg.numKeypoints) :
    get_hand_coords cfg (some inp)
      = Except.ok (some
          ( if inp.isRelative then HandMode.relative else HandMode.absolute,
            fun i => inp.keypoints.get ⟨i.val, by rw [h]; exact i.isLt⟩ )) := by
  simp only [get_hand_coords]
  rw [dif_pos h]

lemma get_hand_coords_mismatch (cfg : HandConfig) (inp : InputFrame)
    (h : inp.keypoints.length ≠ cfg.numKeypoints) :
    get_hand_coords cfg (some inp) = Except.error StreamError.reshapeError := by
  simp only [get_hand_coords]
  rw [dif_neg h]

/-- Claim C3 failing input: a keypoint set with all landmarks at the origin
(collinear, degenerate geometry). The rotation solve fails, and since the loop
body has no exception handler, the failure propagates out of the tick as an
error instead of being caught, warned about, and skipped. -/
theorem c3_degenerate_geometry_error_propagates :
    stream_step c1cfg 0 ⟨[], []⟩
        (some ⟨[vec3 0 0 0, vec3 0 0 0, vec3 0 0 0, vec3 0 0 0], false⟩)
      = Except.error StreamError.linAlgError := by
  unfold stream_step
  rw [get_hand_coords_ok c1cfg ⟨[vec3 0 0 0, vec3 0 0 0, vec3 0 0 0, vec3 0 0 0], false⟩ rfl]
  simp only [after_get, process_coords]
  rw [transform_keypoints_of_const c1cfg _ (vec3 0 0 0) (fun i => by fin_cases i <;> rfl)]

/-- Claim C7 counterexample: a tick whose keypoint data has 1 keypoint instead
of the configured 4 is not skipped with a warning — the reshape failure
propagates out of the loop body as an error. -/
theorem c7_counterexample :
    stream_step c1cfg 0 ⟨[], []⟩ (some ⟨[vec3 0 0 0], false⟩)
      = Except.error StreamError.reshapeError := by
  unfold stream_step
  rw [get_hand_coords_mismatch c1cfg ⟨[vec3 0 0 0], false⟩ (by decide)]
  rfl

/-- Claim C7 (amended): on every tick whose keypoint count differs from the
configured N, the reshape raises and the error propagates out of the loop body
uncaught — no warning is emitted, no publish or log call happens, and the
windows of the pre-tick state are simply abandoned rather than updated. -/
theorem c7_count_mismatch_error_propagates (cfg : HandConfig) (now : ℝ)
    (st : StreamState cfg) (inp : InputFrame)
    (h : inp.keypoints.length ≠ cfg.numKeypoints) :
    stream_step cfg now st (some inp) = Except.error StreamError.reshapeError := by
  unfold stream_step
  rw [get_hand_coords_mismatch cfg inp h]
  rfl

/-- Claim C7 witness: a concrete two-keypoint input against the four-keypoint
configuration. -/
theorem c7_witness :
    (([vec3 0 0 0, vec3 0 0 0] : List Vec).length ≠ c1cfg.numKeypoints) ∧
    stream_step c1cfg 1 ⟨[], []⟩ (some ⟨[vec3 0 0 0, vec3 0 0 0], true⟩)
      = Except.error StreamError.reshapeError :=
  ⟨by decide,
    c7_count_mismatch_error_propagates c1cfg 1 ⟨[], []⟩
      ⟨[vec3 0 0 0, vec3 0 0 0], true⟩ (by decide)⟩
